import Mathlib

/-!
Verification of the storage core of the db-exercise repository:
the LRU replacer (`src/replacer/lru_replacer.cpp`) and the disk manager
(`src/storage/disk_manager.cpp`), shallowly embedded.

Modelling conventions:
* `frame_id_t` and `page_id_t` are machine integers used only as identifiers
  and counters; they are embedded as `Nat` (the code asserts non-negativity
  where it matters).
* The C++ `LRUReplacer` keeps a `std::list` (`LRUlist_`, front = most
  recently unpinned) plus a hash index `LRUhash_` from frame id to list
  iterator.  The key set of the hash always equals the set of list elements, so
  membership tests against `LRUhash_` are embedded as membership tests
  against the list, and the iterator-based `LRUlist_.erase(frame)` in `pin`
  is embedded as value-based erasure.
* File contents are embedded as byte sequences; POSIX calls (`lseek`,
  `read`, `write`, `open`, `unlink`, `stat`) are embedded by their effect on
  those sequences and on the open-file bookkeeping.
-/

namespace DBExercise

/-- State of `LRUReplacer` (lru_replacer.cpp).  `LRUlist_` is ordered from
most-recently-unpinned (head) to least-recently-unpinned (tail);
`max_size_` is the pool size stored by the constructor. -/
structure LRUReplacer where
  LRUlist_ : List Nat
  max_size_ : Nat
deriving DecidableEq

/-- `LRUReplacer::LRUReplacer(size_t num_pages)`: stores `num_pages` in
`max_size_`; the registry starts empty. -/
def LRUReplacer.new (num_pages : Nat) : LRUReplacer :=
  { LRUlist_ := [], max_size_ := num_pages }

/-- `LRUReplacer::victim(frame_id_t*)`: if the list is empty, return
`false` (embedded as `none`); otherwise take the back of the list, remove
it from the list (and its hash entry) and return it. -/
def LRUReplacer.victim (r : LRUReplacer) : Option Nat × LRUReplacer :=
  match r.LRUlist_.getLast? with
  | none => (none, r)
  | some victim_id => (some victim_id, { r with LRUlist_ := r.LRUlist_.dropLast })

/-- `LRUReplacer::pin(frame_id_t)`: if the frame id is present (checked via
`LRUhash_.count`), erase it from the list and the hash; otherwise no-op. -/
def LRUReplacer.pin (r : LRUReplacer) (frame_id : Nat) : LRUReplacer :=
  if frame_id ∈ r.LRUlist_ then { r with LRUlist_ := r.LRUlist_.erase frame_id }
  else r

/-- `LRUReplacer::unpin(frame_id_t)`: if the frame id is absent (checked via
`LRUhash_.count`), push it at the front of the list and index it; duplicate
unpins are ignored. -/
def LRUReplacer.unpin (r : LRUReplacer) (frame_id : Nat) : LRUReplacer :=
  if frame_id ∈ r.LRUlist_ then r
  else { r with LRUlist_ := frame_id :: r.LRUlist_ }

/-- `LRUReplacer::Size()`: the length of `LRUlist_`. -/
def LRUReplacer.Size (r : LRUReplacer) : Nat :=
  r.LRUlist_.length

/-- One external call into the replacer. -/
inductive ReplacerOp where
  | pin (f : Nat)
  | unpin (f : Nat)
  | victim
deriving DecidableEq

/-- Apply one call to the replacer state (the value returned by `victim`
is dropped; only the state evolution matters here). -/
def applyOp (r : LRUReplacer) : ReplacerOp → LRUReplacer
  | ReplacerOp.pin f => r.pin f
  | ReplacerOp.unpin f => r.unpin f
  | ReplacerOp.victim => r.victim.2

/-- Run a sequence of calls from a given state. -/
def runOps (r : LRUReplacer) (ops : List ReplacerOp) : LRUReplacer :=
  ops.foldl applyOp r

/-- Repeatedly call `victim`, collecting the returned frame ids, for at
most `fuel` rounds or until `victim` reports an empty registry. -/
def drainAux : Nat → LRUReplacer → List Nat
  | 0, _ => []
  | Nat.succ fuel, r =>
    match r.victim with
    | (some v, r2) => v :: drainAux fuel r2
    | (none, _) => []

/-- Repeatedly call `victim` until the registry is empty, collecting the
returned frame ids in order. -/
def drainVictims (r : LRUReplacer) : List Nat :=
  drainAux r.Size r

/-- The frame ids passed to `unpin` in a call sequence. -/
def unpinnedIds : List ReplacerOp → List Nat
  | [] => []
  | ReplacerOp.unpin f :: rest => f :: unpinnedIds rest
  | _ :: rest => unpinnedIds rest

/-! ### DiskManager model -/

/-- Fixed page-size constant from the project headers (`PAGE_SIZE`). The
claims hold for any positive value; `4096` matches the RMDB configuration
the sources are built against. -/
def PAGE_SIZE : Nat := 4096

/-- Fixed maximum file-handle count from the project headers (`MAX_FD`),
the length of the `fd2pageno_` array. -/
def MAX_FD : Nat := 8192

/-- Errors thrown by `DiskManager` (exception classes declared in the
project headers; each carries the offending path, handle or message). -/
inductive DMError where
  | FileExistsError (path : String)
  | FileNotFoundError (path : String)
  | FileNotClosedError (path : String)
  | FileNotOpenError (fd : Nat)
  | InternalError (msg : String)
  | UnixError
deriving DecidableEq

/-- `std::unordered_map` / `std::map` lookup, embedded on an association
list: the first binding of the key, if any. -/
def mapLookup {α β : Type} [DecidableEq α] : List (α × β) → α → Option β
  | [], _ => none
  | (a, b) :: rest, k => if a = k then some b else mapLookup rest k

/-- Map update `m[k] = v`: bind `k` to `v`, dropping any previous binding. -/
def mapInsert {α β : Type} [DecidableEq α] (l : List (α × β)) (k : α) (v : β) :
    List (α × β) :=
  (k, v) :: l.filter (fun kv => decide (kv.1 ≠ k))

/-- Map erasure `m.erase(k)`: drop every binding of `k`. -/
def mapErase {α β : Type} [DecidableEq α] (l : List (α × β)) (k : α) :
    List (α × β) :=
  l.filter (fun kv => decide (kv.1 ≠ k))

/-- In-memory bookkeeping of `DiskManager`: the path↔handle open-file table
and the per-handle page-number counters (`fd2pageno_`, an array of `MAX_FD`
atomic counters, zero-initialised by the `memset` in the constructor).  The log
channel (`log_fd_`) is modelled separately by `read_log` / `write_log`
below. -/
structure DiskManagerState where
  path2fd_ : List (String × Nat)
  fd2path_ : List (Nat × String)
  fd2pageno_ : Nat → Nat

/-- `DiskManager::DiskManager()`: empty open-file table, all page-number
counters zero. -/
def DiskManagerState.new : DiskManagerState :=
  { path2fd_ := [], fd2path_ := [], fd2pageno_ := fun _ => 0 }

/-- A `DiskManager` together with the OS state it acts on: the set of
existing regular files and a supply of fresh OS file descriptors (the OS
returns a descriptor not currently open; a monotone counter realises
that). -/
structure Sys where
  fs : List String
  dm : DiskManagerState
  nextFd : Nat

/-- Initial system: empty filesystem, fresh `DiskManager`. -/
def Sys.init : Sys :=
  { fs := [], dm := DiskManagerState.new, nextFd := 0 }

/-- `DiskManager::is_file(path)`: `stat` succeeds and reports a regular
file. -/
def Sys.is_file (s : Sys) (path : String) : Bool :=
  decide (path ∈ s.fs)

/-- `DiskManager::create_file(path)`: `open(path, O_CREAT|O_EXCL|O_WRONLY)`
fails iff the path already exists (`FileExistsError`); on success the new
empty file is created and immediately closed. -/
def Sys.create_file (s : Sys) (path : String) : Except DMError Sys :=
  if path ∈ s.fs then Except.error (DMError.FileExistsError path)
  else Except.ok { s with fs := path :: s.fs }

/-- `DiskManager::destroy_file(path)`: throws `FileNotClosedError` if the
path is still in the open-file table; otherwise `unlink(path)`, throwing
`FileNotFoundError` if the unlink fails (no such file). -/
def Sys.destroy_file (s : Sys) (path : String) : Except DMError Sys :=
  if (mapLookup s.dm.path2fd_ path).isSome then
    Except.error (DMError.FileNotClosedError path)
  else if path ∈ s.fs then
    Except.ok { s with fs := s.fs.erase path }
  else
    Except.error (DMError.FileNotFoundError path)

/-- `DiskManager::open_file(path)`: throws `FileNotFoundError` unless
`is_file(path)`; returns the tracked handle if the path is already open;
otherwise `open(path, O_RDWR)` yields a fresh OS handle, both directions of
the mapping are registered, and the handle is returned. -/
def Sys.open_file (s : Sys) (path : String) : Except DMError (Nat × Sys) :=
  if s.is_file path = false then Except.error (DMError.FileNotFoundError path)
  else
    match mapLookup s.dm.path2fd_ path with
    | some fd => Except.ok (fd, s)
    | none =>
      let fd := s.nextFd
      Except.ok (fd,
        { s with
          nextFd := s.nextFd + 1,
          dm := { s.dm with
                  path2fd_ := mapInsert s.dm.path2fd_ path fd,
                  fd2path_ := mapInsert s.dm.fd2path_ fd path } })

/-- `DiskManager::close_file(fd)`: no-op if the handle is not tracked;
otherwise the OS handle is closed and both directions of the mapping are
removed (the underlying `close` succeeds in this fault-free model). -/
def Sys.close_file (s : Sys) (fd : Nat) : Sys :=
  match mapLookup s.dm.fd2path_ fd with
  | none => s
  | some path =>
    { s with
      dm := { s.dm with
              fd2path_ := mapErase s.dm.fd2path_ fd,
              path2fd_ := mapErase s.dm.path2fd_ path } }

/-- `DiskManager::allocate_page(fd)`: `assert(fd >= 0 && fd < MAX_FD)`
(embedded as `none` on violation; `fd ≥ 0` is inherent in `Nat`), then
return `fd2pageno_[fd]++` — the current counter value, post-incrementing
it. -/
def Sys.allocate_page (s : Sys) (fd : Nat) : Option (Nat × Sys) :=
  if fd < MAX_FD then
    some (s.dm.fd2pageno_ fd,
      { s with
        dm := { s.dm with
                fd2pageno_ := fun g =>
                  if g = fd then s.dm.fd2pageno_ fd + 1 else s.dm.fd2pageno_ g } })
  else none

/-- One external call into the file/handle bookkeeping of the disk manager. -/
inductive DMOp where
  | create (p : String)
  | destroy (p : String)
  | openf (p : String)
  | closef (fd : Nat)
  | alloc (fd : Nat)
deriving DecidableEq

/-- Apply one call to the system state.  A thrown exception leaves the
state unchanged (every C++ throw above happens before any mutation), and
the values returned by `open_file` / `allocate_page` are dropped. -/
def Sys.step (s : Sys) : DMOp → Sys
  | DMOp.create p =>
    match s.create_file p with
    | Except.ok s2 => s2
    | Except.error _ => s
  | DMOp.destroy p =>
    match s.destroy_file p with
    | Except.ok s2 => s2
    | Except.error _ => s
  | DMOp.openf p =>
    match s.open_file p with
    | Except.ok (_, s2) => s2
    | Except.error _ => s
  | DMOp.closef fd => s.close_file fd
  | DMOp.alloc fd =>
    match s.allocate_page fd with
    | some (_, s2) => s2
    | none => s

/-- Run a sequence of calls from the initial system state. -/
def runDM (ops : List DMOp) : Sys :=
  ops.foldl Sys.step Sys.init

/-- The number of `allocate_page(fd)` calls in a call sequence. -/
def countAllocs (ops : List DMOp) (fd : Nat) : Nat :=
  (ops.filter (fun o => decide (o = DMOp.alloc fd))).length

/-! ### Page I/O model -/

/-- The bytes of one data file: `size` is the current file length, and
`byteAt i` is the byte at offset `i` (unwritten holes read as zero, as
POSIX sparse files do; bytes past `size` are irrelevant). -/
structure FileImage where
  size : Nat
  byteAt : Nat → Nat

/-- POSIX `write` at an absolute offset (after `lseek(fd, off, SEEK_SET)`):
transfers `min buf.length num_bytes` bytes of `buf` — a buffer shorter than
the requested count is the one source of a short write in this model — overwrites
the bytes at `[off, off + n)`, extends the file size as needed, and returns
the transfer count with the new image. -/
def osWrite (f : FileImage) (off : Nat) (buf : List Nat) (num_bytes : Nat) :
    Nat × FileImage :=
  let n := min buf.length num_bytes
  (n,
    { size := max f.size (off + n),
      byteAt := fun i =>
        if off ≤ i ∧ i < off + n then buf.getD (i - off) 0 else f.byteAt i })

/-- POSIX `read` at an absolute offset: transfers
`min num_bytes (size - off)` bytes (zero at or past end-of-file). -/
def osRead (f : FileImage) (off : Nat) (num_bytes : Nat) : List Nat :=
  (List.range (min num_bytes (f.size - off))).map (fun i => f.byteAt (off + i))

/-- `DiskManager::write_page(fd, page_no, offset, num_bytes)`: seek to
`page_no * PAGE_SIZE`, `write` `num_bytes` bytes, and throw
`InternalError` when the byte count actually written differs from
`num_bytes`. -/
def write_page (f : FileImage) (page_no : Nat) (buf : List Nat)
    (num_bytes : Nat) : Except DMError FileImage :=
  let off := page_no * PAGE_SIZE
  let r := osWrite f off buf num_bytes
  if r.1 ≠ num_bytes then
    Except.error (DMError.InternalError "DiskManager::write_page Error")
  else Except.ok r.2

/-- `DiskManager::read_page(fd, page_no, offset, num_bytes)`: seek to
`page_no * PAGE_SIZE`, `read` `num_bytes` bytes, and throw `InternalError`
when the byte count actually read differs from `num_bytes` (e.g. reading
past end-of-file). -/
def read_page (f : FileImage) (page_no : Nat) (num_bytes : Nat) :
    Except DMError (List Nat) :=
  let off := page_no * PAGE_SIZE
  let data := osRead f off num_bytes
  if data.length ≠ num_bytes then
    Except.error (DMError.InternalError "DiskManager::read_page Error")
  else Except.ok data

/-! ### Log channel model -/

/-- `DiskManager::read_log(log_data, size, offset)` acting on the log
current bytes `log` of the log file (the lazily opened `log_fd_` handle is assumed
bound to it): return `-1` if `offset` exceeds the file size; clamp `size`
to `min size (file_size - offset)`; return `0` transferring nothing when
the clamped size is zero; otherwise read exactly that many bytes at
`offset` (the code asserts the read is full).  The result pairs the C++
return value with the bytes placed in `log_data`. -/
def read_log (log : List Nat) (size offset : Nat) : Int × List Nat :=
  let file_size := log.length
  if offset > file_size then (-1, [])
  else
    let size2 := min size (file_size - offset)
    if size2 = 0 then (0, [])
    else (Int.ofNat size2, (log.drop offset).take size2)

/-- `DiskManager::write_log(log_data, size)`: seek to end-of-file and
append `size` bytes of `log_data` (the write is full in this fault-free
model; a short write would throw `UnixError`). -/
def write_log (log : List Nat) (log_data : List Nat) (size : Nat) : List Nat :=
  log ++ log_data.take size

/-! ### Association-map lemmas -/

theorem mapLookup_filter_ne {α β : Type} [DecidableEq α]
    (l : List (α × β)) (k k' : α) (h : k' ≠ k) :
    mapLookup (l.filter (fun kv => decide (kv.1 ≠ k))) k' = mapLookup l k' := by
  induction l with
  | nil => rfl
  | cons kv rest ih =>
    simp only [List.filter_cons]
    by_cases hk : kv.1 = k
    · have hne : kv.1 ≠ k' := by rw [hk]; exact Ne.symm h
      rw [if_neg (by simp [hk])]
      rw [ih]
      simp only [mapLookup]
      rw [if_neg hne]
    · rw [if_pos (by simp [hk])]
      simp only [mapLookup]
      by_cases hkk : kv.1 = k'
      · rw [if_pos hkk, if_pos hkk]
      · rw [if_neg hkk, if_neg hkk]
        exact ih

theorem mapLookup_mapInsert_self {α β : Type} [DecidableEq α]
    (l : List (α × β)) (k : α) (v : β) :
    mapLookup (mapInsert l k v) k = some v := by
  simp [mapInsert, mapLookup]

theorem mapLookup_mapInsert_ne {α β : Type} [DecidableEq α]
    (l : List (α × β)) (k k' : α) (v : β) (h : k' ≠ k) :
    mapLookup (mapInsert l k v) k' = mapLookup l k' := by
  simp only [mapInsert, mapLookup, if_neg (Ne.symm h)]
  exact mapLookup_filter_ne l k k' h

theorem mapLookup_mapErase_self {α β : Type} [DecidableEq α]
    (l : List (α × β)) (k : α) :
    mapLookup (mapErase l k) k = none := by
  induction l with
  | nil => rfl
  | cons kv rest ih =>
    by_cases hk : kv.1 = k
    · simp only [mapErase, List.filter_cons, hk, decide_not, decide_eq_true_eq]
      simpa [mapErase] using ih
    · simp only [mapErase, List.filter_cons]
      rw [if_pos (by simpa using hk)]
      simp only [mapLookup, if_neg hk]
      exact ih

theorem mapLookup_mapErase_ne {α β : Type} [DecidableEq α]
    (l : List (α × β)) (k k' : α) (h : k' ≠ k) :
    mapLookup (mapErase l k) k' = mapLookup l k' :=
  mapLookup_filter_ne l k k' h

/-! ### Operation result-state equations -/

theorem open_file_not_found (s : Sys) (p : String) (h : p ∉ s.fs) :
    s.open_file p = Except.error (DMError.FileNotFoundError p) := by
  simp [Sys.open_file, Sys.is_file, h]

theorem open_file_tracked (s : Sys) (p : String) (fd : Nat) (hfs : p ∈ s.fs)
    (h : mapLookup s.dm.path2fd_ p = some fd) :
    s.open_file p = Except.ok (fd, s) := by
  simp [Sys.open_file, Sys.is_file, hfs, h]

theorem open_file_fresh (s : Sys) (p : String) (hfs : p ∈ s.fs)
    (h : mapLookup s.dm.path2fd_ p = none) :
    s.open_file p = Except.ok (s.nextFd,
      { s with
        nextFd := s.nextFd + 1,
        dm := { s.dm with
                path2fd_ := mapInsert s.dm.path2fd_ p s.nextFd,
                fd2path_ := mapInsert s.dm.fd2path_ s.nextFd p } }) := by
  simp [Sys.open_file, Sys.is_file, hfs, h]

theorem close_file_untracked (s : Sys) (fd : Nat)
    (h : mapLookup s.dm.fd2path_ fd = none) : s.close_file fd = s := by
  simp [Sys.close_file, h]

theorem close_file_tracked (s : Sys) (fd : Nat) (path : String)
    (h : mapLookup s.dm.fd2path_ fd = some path) :
    s.close_file fd =
      { s with
        dm := { s.dm with
                fd2path_ := mapErase s.dm.fd2path_ fd,
                path2fd_ := mapErase s.dm.path2fd_ path } } := by
  simp [Sys.close_file, h]

/-! ### Open-file-table invariant -/

/-- Invariant of every reachable system state: the open-file table is a
bijection, every tracked handle is below the fresh-handle supply, every
tracked path exists on disk, and the filesystem list is duplicate-free. -/
structure SysInv (s : Sys) : Prop where
  bij : ∀ p fd, mapLookup s.dm.path2fd_ p = some fd
      ↔ mapLookup s.dm.fd2path_ fd = some p
  fresh : ∀ fd p, mapLookup s.dm.fd2path_ fd = some p → fd < s.nextFd
  tracked : ∀ p fd, mapLookup s.dm.path2fd_ p = some fd → p ∈ s.fs
  nodupFs : s.fs.Nodup

theorem sysInv_init : SysInv Sys.init := by
  refine ⟨?_, ?_, ?_, ?_⟩
  · intro p fd
    simp [Sys.init, DiskManagerState.new, mapLookup]
  · intro fd p h
    simp [Sys.init, DiskManagerState.new, mapLookup] at h
  · intro p fd h
    simp [Sys.init, DiskManagerState.new, mapLookup] at h
  · exact List.nodup_nil

theorem step_inv (s : Sys) (op : DMOp) (h : SysInv s) : SysInv (s.step op) := by
  obtain ⟨B, F, T, N⟩ := h
  cases op with
  | create p =>
    simp only [Sys.step, Sys.create_file]
    by_cases hp : p ∈ s.fs
    · simp only [if_pos hp]
      exact ⟨B, F, T, N⟩
    · simp only [if_neg hp]
      refine ⟨B, F, ?_, List.nodup_cons.mpr ⟨hp, N⟩⟩
      intro q fd hq
      exact List.mem_cons_of_mem _ (T q fd hq)
  | destroy p =>
    simp only [Sys.step, Sys.destroy_file]
    by_cases hopen : (mapLookup s.dm.path2fd_ p).isSome
    · simp only [if_pos hopen]
      exact ⟨B, F, T, N⟩
    · simp only [if_neg hopen]
      by_cases hfs2 : p ∈ s.fs
      · simp only [if_pos hfs2]
        refine ⟨B, F, ?_, N.erase p⟩
        intro q fd hq
        have hqfs := T q fd hq
        have hqp : q ≠ p := by
          intro he
          subst he
          rw [hq] at hopen
          exact hopen rfl
        exact (List.mem_erase_of_ne hqp).mpr hqfs
      · simp only [if_neg hfs2]
        exact ⟨B, F, T, N⟩
  | openf p =>
    by_cases hp : p ∈ s.fs
    · rcases htr : mapLookup s.dm.path2fd_ p with _ | fd
      · have he : s.step (DMOp.openf p) =
            { s with
              nextFd := s.nextFd + 1,
              dm := { s.dm with
                      path2fd_ := mapInsert s.dm.path2fd_ p s.nextFd,
                      fd2path_ := mapInsert s.dm.fd2path_ s.nextFd p } } := by
          simp [Sys.step, open_file_fresh s p hp htr]
        rw [he]
        refine ⟨?_, ?_, ?_, N⟩ <;> dsimp only
        · intro q fd
          rcases eq_or_ne q p with rfl | hq <;>
            rcases eq_or_ne fd s.nextFd with rfl | hfd
          · rw [mapLookup_mapInsert_self, mapLookup_mapInsert_self]
            simp
          · rw [mapLookup_mapInsert_self, mapLookup_mapInsert_ne _ _ _ _ hfd]
            constructor
            · intro he2
              exact absurd (Option.some.inj he2).symm hfd
            · intro he2
              have h2 := (B q fd).mpr he2
              rw [htr] at h2
              exact absurd h2 (by simp)
          · rw [mapLookup_mapInsert_ne _ _ _ _ hq, mapLookup_mapInsert_self]
            constructor
            · intro he2
              have h2 := F s.nextFd q ((B q s.nextFd).mp he2)
              omega
            · intro he2
              exact absurd (Option.some.inj he2).symm hq
          · rw [mapLookup_mapInsert_ne _ _ _ _ hq,
              mapLookup_mapInsert_ne _ _ _ _ hfd]
            exact B q fd
        · intro fd q hq2
          rcases eq_or_ne fd s.nextFd with rfl | hfd
          · omega
          · rw [mapLookup_mapInsert_ne _ _ _ _ hfd] at hq2
            have h2 := F fd q hq2
            omega
        · intro q fd hq2
          rcases eq_or_ne q p with rfl | hq
          · exact hp
          · rw [mapLookup_mapInsert_ne _ _ _ _ hq] at hq2
            exact T q fd hq2
      · have he : s.step (DMOp.openf p) = s := by
          simp [Sys.step, open_file_tracked s p fd hp htr]
        rw [he]
        exact ⟨B, F, T, N⟩
    · have he : s.step (DMOp.openf p) = s := by
        simp [Sys.step, open_file_not_found s p hp]
      rw [he]
      exact ⟨B, F, T, N⟩
  | closef fd0 =>
    rcases hcl : mapLookup s.dm.fd2path_ fd0 with _ | path
    · have he : s.step (DMOp.closef fd0) = s := by
        simp [Sys.step, close_file_untracked s fd0 hcl]
      rw [he]
      exact ⟨B, F, T, N⟩
    · have he : s.step (DMOp.closef fd0) =
          { s with
            dm := { s.dm with
                    fd2path_ := mapErase s.dm.fd2path_ fd0,
                    path2fd_ := mapErase s.dm.path2fd_ path } } := by
        simp [Sys.step, close_file_tracked s fd0 path hcl]
      rw [he]
      refine ⟨?_, ?_, ?_, N⟩ <;> dsimp only
      · intro q fd
        rcases eq_or_ne q path with rfl | hq <;> rcases eq_or_ne fd fd0 with rfl | hfd
        · rw [mapLookup_mapErase_self, mapLookup_mapErase_self]
          simp
        · rw [mapLookup_mapErase_self, mapLookup_mapErase_ne _ _ _ hfd]
          constructor
          · intro he2
            exact absurd he2 (by simp)
          · intro he2
            have h1 := (B q fd).mpr he2
            have h2 := (B q fd0).mpr hcl
            rw [h1] at h2
            exact absurd (Option.some.inj h2) hfd
        · rw [mapLookup_mapErase_ne _ _ _ hq, mapLookup_mapErase_self]
          constructor
          · intro he2
            have h1 := (B q fd).mp he2
            rw [hcl] at h1
            exact absurd (Option.some.inj h1).symm hq
          · intro he2
            exact absurd he2 (by simp)
        · rw [mapLookup_mapErase_ne _ _ _ hq, mapLookup_mapErase_ne _ _ _ hfd]
          exact B q fd
      · intro fd q hq2
        rcases eq_or_ne fd fd0 with rfl | hfd
        · rw [mapLookup_mapErase_self] at hq2
          exact absurd hq2 (by simp)
        · rw [mapLookup_mapErase_ne _ _ _ hfd] at hq2
          exact F fd q hq2
      · intro q fd hq2
        rcases eq_or_ne q path with rfl | hq
        · rw [mapLookup_mapErase_self] at hq2
          exact absurd hq2 (by simp)
        · rw [mapLookup_mapErase_ne _ _ _ hq] at hq2
          exact T q fd hq2
  | alloc fd =>
    by_cases hfd : fd < MAX_FD
    · simp only [Sys.step, Sys.allocate_page, if_pos hfd]
      exact ⟨B, F, T, N⟩
    · simp only [Sys.step, Sys.allocate_page, if_neg hfd]
      exact ⟨B, F, T, N⟩

theorem foldl_inv (ops : List DMOp) (s : Sys) (h : SysInv s) :
    SysInv (ops.foldl Sys.step s) := by
  induction ops generalizing s with
  | nil => exact h
  | cons op rest ih => exact ih _ (step_inv s op h)

theorem runDM_inv (ops : List DMOp) : SysInv (runDM ops) :=
  foldl_inv ops Sys.init sysInv_init

/-! ### Page-number counter lemmas -/

theorem step_counter (s : Sys) (op : DMOp) (fd : Nat) (h : fd < MAX_FD) :
    (s.step op).dm.fd2pageno_ fd
      = s.dm.fd2pageno_ fd + (if op = DMOp.alloc fd then 1 else 0) := by
  cases op with
  | create p =>
    rw [if_neg (by simp)]
    by_cases hp : p ∈ s.fs <;> simp [Sys.step, Sys.create_file, hp]
  | destroy p =>
    rw [if_neg (by simp)]
    by_cases hopen : (mapLookup s.dm.path2fd_ p).isSome
    · simp [Sys.step, Sys.destroy_file, hopen]
    · by_cases hfs2 : p ∈ s.fs <;> simp [Sys.step, Sys.destroy_file, hopen, hfs2]
  | openf p =>
    rw [if_neg (by simp)]
    by_cases hp : p ∈ s.fs
    · rcases htr : mapLookup s.dm.path2fd_ p with _ | fd2
      · simp [Sys.step, open_file_fresh s p hp htr]
      · simp [Sys.step, open_file_tracked s p fd2 hp htr]
    · simp [Sys.step, open_file_not_found s p hp]
  | closef g =>
    rw [if_neg (by simp)]
    rcases hcl : mapLookup s.dm.fd2path_ g with _ | path
    · simp [Sys.step, close_file_untracked s g hcl]
    · simp [Sys.step, close_file_tracked s g path hcl]
  | alloc g =>
    by_cases hga : g < MAX_FD
    · rcases eq_or_ne g fd with rfl | hgf
      · simp [Sys.step, Sys.allocate_page, hga]
      · rw [if_neg (by simpa using hgf)]
        simp [Sys.step, Sys.allocate_page, hga, Ne.symm hgf]
    · have hgf : g ≠ fd := fun he => hga (he ▸ h)
      rw [if_neg (by simp [hgf])]
      simp [Sys.step, Sys.allocate_page, hga]

theorem countAllocs_cons (op : DMOp) (rest : List DMOp) (fd : Nat) :
    countAllocs (op :: rest) fd
      = (if op = DMOp.alloc fd then 1 else 0) + countAllocs rest fd := by
  by_cases hop : op = DMOp.alloc fd
  · simp [countAllocs, List.filter_cons, hop]
    omega
  · simp [countAllocs, List.filter_cons, hop]

theorem fd2pageno_foldl (ops : List DMOp) (s : Sys) (fd : Nat) (h : fd < MAX_FD) :
    (ops.foldl Sys.step s).dm.fd2pageno_ fd
      = s.dm.fd2pageno_ fd + countAllocs ops fd := by
  induction ops generalizing s with
  | nil => simp [countAllocs]
  | cons op rest ih =>
    simp only [List.foldl_cons]
    rw [ih (s.step op), step_counter s op fd h, countAllocs_cons]
    omega

theorem runDM_counter (ops : List DMOp) (fd : Nat) (h : fd < MAX_FD) :
    (runDM ops).dm.fd2pageno_ fd = countAllocs ops fd := by
  have h2 := fd2pageno_foldl ops Sys.init fd h
  simpa [Sys.init, DiskManagerState.new, runDM] using h2

theorem countAllocs_eq_zero_iff (ops : List DMOp) (fd : Nat) :
    countAllocs ops fd = 0 ↔ DMOp.alloc fd ∉ ops := by
  rw [countAllocs, List.length_eq_zero, List.filter_eq_nil_iff]
  constructor
  · intro hall hmem
    have h2 := hall _ hmem
    simp at h2
  · intro hmem o ho
    simp only [decide_eq_true_eq]
    intro he
    exact hmem (he ▸ ho)

/-! ### Page and log I/O lemmas -/

theorem osWrite_fst (f : FileImage) (off : Nat) (buf : List Nat) (nb : Nat) :
    (osWrite f off buf nb).1 = min buf.length nb := rfl

theorem osWrite_size (f : FileImage) (off : Nat) (buf : List Nat) (nb : Nat) :
    (osWrite f off buf nb).2.size = max f.size (off + min buf.length nb) := rfl

theorem osWrite_byteAt (f : FileImage) (off : Nat) (buf : List Nat) (nb i : Nat) :
    (osWrite f off buf nb).2.byteAt i
      = if off ≤ i ∧ i < off + min buf.length nb then buf.getD (i - off) 0
        else f.byteAt i := rfl

theorem osRead_length (f : FileImage) (off n : Nat) :
    (osRead f off n).length = min n (f.size - off) := by
  simp [osRead]

theorem range_map_getD (buf : List Nat) :
    (List.range buf.length).map (fun i => buf.getD i 0) = buf := by
  apply List.ext_getElem
  · simp
  · intro i h1 h2
    simp [List.getD_eq_getElem?_getD, List.getElem?_eq_getElem h2]

/-! ### Replacer lemmas -/

theorem victim_fst (r : LRUReplacer) : r.victim.1 = r.LRUlist_.getLast? := by
  unfold LRUReplacer.victim
  cases h : r.LRUlist_.getLast? <;> rfl

theorem victim_snd_LRUlist (r : LRUReplacer) :
    r.victim.2.LRUlist_ = r.LRUlist_.dropLast := by
  unfold LRUReplacer.victim
  cases h : r.LRUlist_.getLast? with
  | none =>
    have hnil : r.LRUlist_ = [] := List.getLast?_eq_none_iff.mp h
    simp [hnil]
  | some v => rfl

theorem applyOp_nodup (r : LRUReplacer) (op : ReplacerOp) (h : r.LRUlist_.Nodup) :
    (applyOp r op).LRUlist_.Nodup := by
  cases op with
  | pin f =>
    by_cases hf : f ∈ r.LRUlist_
    · simp only [applyOp, LRUReplacer.pin, if_pos hf]
      exact h.erase f
    · simpa only [applyOp, LRUReplacer.pin, if_neg hf] using h
  | unpin f =>
    by_cases hf : f ∈ r.LRUlist_
    · simpa only [applyOp, LRUReplacer.unpin, if_pos hf] using h
    · simp only [applyOp, LRUReplacer.unpin, if_neg hf]
      exact List.nodup_cons.mpr ⟨hf, h⟩
  | victim =>
    show (r.victim.2).LRUlist_.Nodup
    rw [victim_snd_LRUlist]
    exact h.sublist (List.dropLast_sublist _)

theorem runOps_nodup (ops : List ReplacerOp) (r : LRUReplacer) (h : r.LRUlist_.Nodup) :
    (runOps r ops).LRUlist_.Nodup := by
  induction ops generalizing r with
  | nil => exact h
  | cons op rest ih =>
    simp only [runOps, List.foldl_cons]
    exact ih _ (applyOp_nodup r op h)

theorem runOps_bound (n : Nat) (ops : List ReplacerOp) (r : LRUReplacer)
    (hb : ∀ x ∈ r.LRUlist_, x < n)
    (hvalid : ∀ f ∈ unpinnedIds ops, f < n) :
    ∀ x ∈ (runOps r ops).LRUlist_, x < n := by
  induction ops generalizing r with
  | nil => exact hb
  | cons op rest ih =>
    simp only [runOps, List.foldl_cons]
    apply ih
    · cases op with
      | pin f =>
        intro x hx
        by_cases hf : f ∈ r.LRUlist_
        · simp only [applyOp, LRUReplacer.pin, if_pos hf] at hx
          exact hb x (List.mem_of_mem_erase hx)
        · simp only [applyOp, LRUReplacer.pin, if_neg hf] at hx
          exact hb x hx
      | unpin f =>
        intro x hx
        by_cases hf : f ∈ r.LRUlist_
        · simp only [applyOp, LRUReplacer.unpin, if_pos hf] at hx
          exact hb x hx
        · simp only [applyOp, LRUReplacer.unpin, if_neg hf, List.mem_cons] at hx
          rcases hx with rfl | hx
          · exact hvalid x (by simp [unpinnedIds])
          · exact hb x hx
      | victim =>
        intro x hx
        rw [show (applyOp r ReplacerOp.victim).LRUlist_ = r.victim.2.LRUlist_ from rfl,
          victim_snd_LRUlist] at hx
        exact hb x ((List.dropLast_sublist _).mem hx)
    · cases op with
      | pin f =>
        intro x hx
        exact hvalid x (by simpa [unpinnedIds] using hx)
      | unpin f =>
        intro x hx
        exact hvalid x (by simp [unpinnedIds, hx])
      | victim =>
        intro x hx
        exact hvalid x (by simpa [unpinnedIds] using hx)

theorem length_le_of_nodup_bound (l : List Nat) (n : Nat)
    (hnd : l.Nodup) (hb : ∀ x ∈ l, x < n) : l.length ≤ n := by
  have h1 : l.toFinset ⊆ Finset.range n := by
    intro x hx
    simp only [List.mem_toFinset] at hx
    exact Finset.mem_range.mpr (hb x hx)
  have h2 := Finset.card_le_card h1
  rwa [List.toFinset_card_of_nodup hnd, Finset.card_range] at h2

theorem drainAux_eq_reverse (fuel : Nat) :
    ∀ (l : List Nat) (m : Nat), l.length ≤ fuel →
      drainAux fuel { LRUlist_ := l, max_size_ := m } = l.reverse := by
  induction fuel with
  | zero =>
    intro l m h
    have hnil : l = [] := List.eq_nil_of_length_eq_zero (Nat.le_zero.mp h)
    subst hnil
    rfl
  | succ fuel ih =>
    intro l m h
    rcases l.eq_nil_or_concat with rfl | ⟨as, a, rfl⟩
    · rfl
    · have hlen : as.length ≤ fuel := by
        simp only [List.length_concat] at h
        omega
      simp only [drainAux, LRUReplacer.victim, List.concat_eq_append,
        List.getLast?_concat, List.dropLast_concat, List.reverse_append,
        List.reverse_cons, List.reverse_nil, List.nil_append, List.singleton_append]
      rw [ih as m hlen]

theorem drainVictims_eq_reverse (r : LRUReplacer) :
    drainVictims r = r.LRUlist_.reverse := by
  cases r with
  | mk l m => exact drainAux_eq_reverse l.length l m le_rfl

/-! ### Replacer claim theorems -/

/-- C1: `victim` removes and returns the least-recently-unpinned frame id
still in the registry (the tail of `LRUlist_`); repeating `victim` until the
registry is empty yields all tracked frame ids in strict LRU order (tail to
head, i.e. the reverse of the registry) with no duplicates; `victim` on the
empty registry returns the defined empty result (`none`, i.e. `false`)
leaving the state unchanged. -/
theorem C1_victim_lru_order (n : Nat) (ops : List ReplacerOp) :
    (runOps (LRUReplacer.new n) ops).victim.1
        = (runOps (LRUReplacer.new n) ops).LRUlist_.getLast? ∧
    (runOps (LRUReplacer.new n) ops).victim.2.LRUlist_
        = (runOps (LRUReplacer.new n) ops).LRUlist_.dropLast ∧
    drainVictims (runOps (LRUReplacer.new n) ops)
        = (runOps (LRUReplacer.new n) ops).LRUlist_.reverse ∧
    (drainVictims (runOps (LRUReplacer.new n) ops)).Nodup ∧
    (LRUReplacer.new n).victim = (none, LRUReplacer.new n) := by
  refine ⟨victim_fst _, victim_snd_LRUlist _, drainVictims_eq_reverse _, ?_, rfl⟩
  rw [drainVictims_eq_reverse, List.nodup_reverse]
  exact runOps_nodup ops _ (by simp [LRUReplacer.new])

/-- C3 as stated is false: the code stores `max_size_` but never checks it,
so a sequence of `unpin` calls with frame ids outside the pool range drives
`Size` above the capacity supplied at construction (capacity 1, then
`unpin 0; unpin 1` gives `Size = 2`). -/
theorem C3_size_bounded_counterexample :
    ¬ ((runOps (LRUReplacer.new 1) [ReplacerOp.unpin 0, ReplacerOp.unpin 1]).Size
        ≤ (LRUReplacer.new 1).max_size_) := by decide

/-- C3 (amended): when every frame id passed to `unpin` lies below the pool
capacity `n` supplied at construction (correct external use), after any
sequence of `unpin`, `pin` and `victim` calls `Size` never exceeds `n`; it
is a natural count, hence never negative. -/
theorem C3_size_bounded_amended (n : Nat) (ops : List ReplacerOp)
    (hvalid : ∀ f ∈ unpinnedIds ops, f < n) :
    (runOps (LRUReplacer.new n) ops).Size ≤ n := by
  show (runOps (LRUReplacer.new n) ops).LRUlist_.length ≤ n
  exact length_le_of_nodup_bound _ n
    (runOps_nodup ops _ (by simp [LRUReplacer.new]))
    (runOps_bound n ops _ (by simp [LRUReplacer.new]) hvalid)

/-- C3 witness: a concrete run (capacity 2, three `unpin` calls on in-range
frame ids, one a duplicate) whose final `Size` is within the capacity. -/
theorem C3_size_bounded_witness :
    (runOps (LRUReplacer.new 2)
      [ReplacerOp.unpin 0, ReplacerOp.unpin 1, ReplacerOp.unpin 0]).Size ≤ 2 :=
  C3_size_bounded_amended 2
    [ReplacerOp.unpin 0, ReplacerOp.unpin 1, ReplacerOp.unpin 0] (by decide)

/-- C8: `unpin f` on an already-tracked `f` is a silent no-op — the whole
state is unchanged, in particular `Size` and the position of `f` in the eviction
order; `unpin g` on an untracked `g` inserts `g` at the head of the
registry. -/
theorem C8_unpin_duplicate_noop (r : LRUReplacer) (f g : Nat)
    (hf : f ∈ r.LRUlist_) (hg : g ∉ r.LRUlist_) :
    r.unpin f = r ∧
    (r.unpin f).Size = r.Size ∧
    List.indexOf f (r.unpin f).LRUlist_ = List.indexOf f r.LRUlist_ ∧
    (r.unpin g).LRUlist_ = g :: r.LRUlist_ := by
  have h1 : r.unpin f = r := by simp [LRUReplacer.unpin, hf]
  exact ⟨h1, by rw [h1], by rw [h1], by simp [LRUReplacer.unpin, hg]⟩

/-- C8 witness: concrete registry `[1, 2]`; `unpin 1` is a no-op and
`unpin 0` prepends `0`. -/
theorem C8_unpin_duplicate_noop_witness :
    (LRUReplacer.mk [1, 2] 2).unpin 1 = LRUReplacer.mk [1, 2] 2 ∧
    ((LRUReplacer.mk [1, 2] 2).unpin 1).Size = (LRUReplacer.mk [1, 2] 2).Size ∧
    List.indexOf 1 ((LRUReplacer.mk [1, 2] 2).unpin 1).LRUlist_
        = List.indexOf 1 (LRUReplacer.mk [1, 2] 2).LRUlist_ ∧
    ((LRUReplacer.mk [1, 2] 2).unpin 0).LRUlist_
        = 0 :: (LRUReplacer.mk [1, 2] 2).LRUlist_ :=
  C8_unpin_duplicate_noop (LRUReplacer.mk [1, 2] 2) 1 0 (by decide) (by decide)

/-- C9: on a duplicate-free registry, `pin f` removes `f` (it is no longer
tracked) and `pin` of an untracked id is a no-op; `pin f` immediately
followed by `unpin f` leaves `f` at the head of the eligibility order,
regardless of the prior position of `f`. -/
theorem C9_pin_unpin_head (r : LRUReplacer) (f g : Nat)
    (hnd : r.LRUlist_.Nodup) (hg : g ∉ r.LRUlist_) :
    ((r.pin f).unpin f).LRUlist_ = f :: r.LRUlist_.erase f ∧
    (r.pin f).LRUlist_ = r.LRUlist_.erase f ∧
    f ∉ (r.pin f).LRUlist_ ∧
    r.pin g = r := by
  have hpin : (r.pin f).LRUlist_ = r.LRUlist_.erase f := by
    by_cases hf : f ∈ r.LRUlist_
    · simp [LRUReplacer.pin, hf]
    · simp [LRUReplacer.pin, hf, List.erase_of_not_mem hf]
  have hnotmem : f ∉ (r.pin f).LRUlist_ := by
    rw [hpin]
    intro hmem
    exact absurd (hnd.mem_erase_iff.mp hmem).1 (by simp)
  refine ⟨?_, hpin, hnotmem, by simp [LRUReplacer.pin, hg]⟩
  simp only [LRUReplacer.unpin, if_neg hnotmem]
  simp [hpin]

/-- C9 witness: concrete registry `[3, 1, 2]`; `pin 1` removes `1`,
`pin 0` is a no-op, and `pin 1; unpin 1` moves `1` to the head. -/
theorem C9_pin_unpin_head_witness :
    (((LRUReplacer.mk [3, 1, 2] 3).pin 1).unpin 1).LRUlist_
        = 1 :: (LRUReplacer.mk [3, 1, 2] 3).LRUlist_.erase 1 ∧
    ((LRUReplacer.mk [3, 1, 2] 3).pin 1).LRUlist_
        = (LRUReplacer.mk [3, 1, 2] 3).LRUlist_.erase 1 ∧
    1 ∉ ((LRUReplacer.mk [3, 1, 2] 3).pin 1).LRUlist_ ∧
    (LRUReplacer.mk [3, 1, 2] 3).pin 0 = LRUReplacer.mk [3, 1, 2] 3 :=
  C9_pin_unpin_head (LRUReplacer.mk [3, 1, 2] 3) 1 0 (by decide) (by decide)

/-! ### DiskManager claim theorems -/

/-- C2: for any file image, page number and buffer of `N ≤ PAGE_SIZE`
bytes, `write_page` succeeds and a following `read_page` of `N` bytes at
the same page returns exactly the written bytes; the write touches only the
byte range starting at offset `page_number * PAGE_SIZE`; and both
operations fail with the `InternalError` I/O error exactly when the bytes
actually transferred differ from `N`. -/
theorem C2_write_read_round_trip (f : FileImage) (p N : Nat) (buf : List Nat)
    (hlen : buf.length = N) (_hN : N ≤ PAGE_SIZE) :
    ∃ f2, write_page f p buf N = Except.ok f2 ∧
      read_page f2 p N = Except.ok buf ∧
      (∀ i, i < p * PAGE_SIZE ∨ p * PAGE_SIZE + N ≤ i → f2.byteAt i = f.byteAt i) ∧
      (∀ g q M, (read_page g q M
            = Except.error (DMError.InternalError "DiskManager::read_page Error"))
          ↔ min M (g.size - q * PAGE_SIZE) ≠ M) ∧
      (∀ g q b M, (write_page g q b M
            = Except.error (DMError.InternalError "DiskManager::write_page Error"))
          ↔ min b.length M ≠ M) := by
  have hmin : min buf.length N = N := by rw [hlen, Nat.min_self]
  refine ⟨(osWrite f (p * PAGE_SIZE) buf N).2, ?_, ?_, ?_, ?_, ?_⟩
  · simp [write_page, osWrite_fst, hmin]
  · have hsz : N ≤ (osWrite f (p * PAGE_SIZE) buf N).2.size - p * PAGE_SIZE := by
      rw [osWrite_size, hmin]
      have h2 := Nat.le_max_right f.size (p * PAGE_SIZE + N)
      omega
    have hread : osRead (osWrite f (p * PAGE_SIZE) buf N).2 (p * PAGE_SIZE) N = buf := by
      unfold osRead
      rw [Nat.min_eq_left hsz]
      have hfun : ∀ i ∈ List.range N,
          (osWrite f (p * PAGE_SIZE) buf N).2.byteAt (p * PAGE_SIZE + i)
            = buf.getD i 0 := by
        intro i hi
        simp only [List.mem_range] at hi
        rw [osWrite_byteAt, hmin, if_pos ⟨Nat.le_add_right _ _, by omega⟩]
        congr 1
        omega
      rw [List.map_congr_left hfun, ← hlen]
      exact range_map_getD buf
    simp [read_page, hread, hlen]
  · intro i hi
    rw [osWrite_byteAt, hmin, if_neg (by omega)]
  · intro g q M
    by_cases hm : min M (g.size - q * PAGE_SIZE) = M <;>
      simp [read_page, osRead_length, hm]
  · intro g q b M
    by_cases hm : min b.length M = M <;>
      simp [write_page, osWrite_fst, hm]

/-- C2 witness: writing the two bytes `0xAB 0xAB` to page 1 of an empty
file and reading them back. -/
theorem C2_write_read_round_trip_witness :
    ∃ f2, write_page (FileImage.mk 0 (fun _ => 0)) 1 [171, 171] 2 = Except.ok f2 ∧
      read_page f2 1 2 = Except.ok [171, 171] ∧
      (∀ i, i < 1 * PAGE_SIZE ∨ 1 * PAGE_SIZE + 2 ≤ i
          → f2.byteAt i = (FileImage.mk 0 (fun _ => 0)).byteAt i) ∧
      (∀ g q M, (read_page g q M
            = Except.error (DMError.InternalError "DiskManager::read_page Error"))
          ↔ min M (g.size - q * PAGE_SIZE) ≠ M) ∧
      (∀ g q b M, (write_page g q b M
            = Except.error (DMError.InternalError "DiskManager::write_page Error"))
          ↔ min b.length M ≠ M) :=
  C2_write_read_round_trip (FileImage.mk 0 (fun _ => 0)) 1 2 [171, 171] rfl (by decide)

/-- C4: `read_log` returns `-1` exactly when `offset` exceeds the current
log size, `0` when `offset` equals the size, and otherwise transfers
exactly `min size (file_size - offset)` bytes from `offset` — a request
extending past end-of-file is truncated, and the truncated read after a
`write_log` append returns exactly the appended bytes. -/
theorem C4_read_log_truncation (log buf : List Nat) (size offset k : Nat) :
    (read_log log size offset).1
        = (if offset > log.length then -1
           else Int.ofNat (min size (log.length - offset))) ∧
    (read_log log size offset).2
        = (if offset > log.length then []
           else (log.drop offset).take (min size (log.length - offset))) ∧
    read_log (write_log log buf buf.length) (buf.length + k) log.length
        = (Int.ofNat buf.length, buf) := by
  refine ⟨?_, ?_, ?_⟩
  · by_cases ho : offset > log.length
    · simp [read_log, ho]
    · by_cases hz : min size (log.length - offset) = 0 <;> simp [read_log, ho, hz]
  · by_cases ho : offset > log.length
    · simp [read_log, ho]
    · by_cases hz : min size (log.length - offset) = 0 <;> simp [read_log, ho, hz]
  · cases buf with
    | nil => simp [write_log, read_log]
    | cons b bs =>
      have hw : write_log log (b :: bs) (b :: bs).length = log ++ (b :: bs) := by
        simp [write_log]
      rw [hw]
      have ho : ¬ (log.length > (log ++ b :: bs).length) := by simp
      have hsz : min ((b :: bs).length + k) ((log ++ b :: bs).length - log.length)
          = bs.length + 1 := by
        simp only [List.length_append, List.length_cons]
        omega
      simp only [read_log, if_neg ho, hsz, if_neg (Nat.succ_ne_zero bs.length)]
      rw [List.drop_left]
      rw [show bs.length + 1 = (b :: bs).length from rfl, List.take_length]

/-- C5: for a handle in the valid range, each `allocate_page` call returns
the number of `allocate_page` calls made on that handle so far — `0`, `1`,
`2`, … strictly increasing by one per call, regardless of interleaved
operations on other handles or files — and `allocate_page` on a handle at
or beyond `MAX_FD` fails the assertion. -/
theorem C5_allocate_page_sequence (ops : List DMOp) (fd gd : Nat)
    (h : fd < MAX_FD) (hg : MAX_FD ≤ gd) :
    ((runDM ops).allocate_page fd).map Prod.fst = some (countAllocs ops fd) ∧
    ((runDM (ops ++ [DMOp.alloc fd])).allocate_page fd).map Prod.fst
        = some (countAllocs ops fd + 1) ∧
    (runDM ops).allocate_page gd = none := by
  refine ⟨?_, ?_, ?_⟩
  · simp [Sys.allocate_page, h, runDM_counter ops fd h]
  · have h2 : countAllocs (ops ++ [DMOp.alloc fd]) fd = countAllocs ops fd + 1 := by
      simp [countAllocs, List.filter_append]
    simp [Sys.allocate_page, h, runDM_counter (ops ++ [DMOp.alloc fd]) fd h, h2]
  · simp [Sys.allocate_page, Nat.not_lt.mpr hg]

/-- C5 witness: three allocations interleaved across handles 0 and 5;
the next page number of handle 0 is 2, appending one more allocation on 0 makes
it 3, and handle 8192 (= `MAX_FD`) fails the assertion. -/
theorem C5_allocate_page_sequence_witness :
    ((runDM [DMOp.alloc 0, DMOp.alloc 5, DMOp.alloc 0]).allocate_page 0).map Prod.fst
        = some (countAllocs [DMOp.alloc 0, DMOp.alloc 5, DMOp.alloc 0] 0) ∧
    ((runDM ([DMOp.alloc 0, DMOp.alloc 5, DMOp.alloc 0] ++ [DMOp.alloc 0])).allocate_page 0).map
        Prod.fst
        = some (countAllocs [DMOp.alloc 0, DMOp.alloc 5, DMOp.alloc 0] 0 + 1) ∧
    (runDM [DMOp.alloc 0, DMOp.alloc 5, DMOp.alloc 0]).allocate_page 8192 = none :=
  C5_allocate_page_sequence [DMOp.alloc 0, DMOp.alloc 5, DMOp.alloc 0] 0 8192
    (by decide) (by decide)

/-- C6: `create_file` on an existing path fails with already-exists;
`destroy_file` on a path present in the open-file table fails with
still-open (leaving the file in place); once `close_file` has removed the
path from the table, `destroy_file` succeeds and a subsequent `is_file` is
false.  The hypotheses are the reachable-state facts: a duplicate-free
filesystem and both directions of the open mapping for `p`. -/
theorem C6_create_destroy_lifecycle (s : Sys) (p : String) (fd : Nat)
    (hnd : s.fs.Nodup) (hfs : p ∈ s.fs)
    (hpf : mapLookup s.dm.path2fd_ p = some fd)
    (hfp : mapLookup s.dm.fd2path_ fd = some p) :
    s.create_file p = Except.error (DMError.FileExistsError p) ∧
    s.destroy_file p = Except.error (DMError.FileNotClosedError p) ∧
    ∃ s2, (s.close_file fd).destroy_file p = Except.ok s2 ∧ s2.is_file p = false := by
  refine ⟨by simp [Sys.create_file, hfs], by simp [Sys.destroy_file, hpf], ?_⟩
  rw [close_file_tracked s fd p hfp]
  have hout : p ∉ s.fs.erase p := fun hmem =>
    absurd (hnd.mem_erase_iff.mp hmem).1 (by simp)
  refine ⟨{ s with
            fs := s.fs.erase p,
            dm := { s.dm with
                    fd2path_ := mapErase s.dm.fd2path_ fd,
                    path2fd_ := mapErase s.dm.path2fd_ p } }, ?_, ?_⟩
  · simp [Sys.destroy_file, mapLookup_mapErase_self, hfs]
  · simp [Sys.is_file]
    exact hout

/-- C6 witness: a one-file system with `"a"` open under handle 0. -/
theorem C6_create_destroy_lifecycle_witness :
    (Sys.mk ["a"] (DiskManagerState.mk [("a", 0)] [(0, "a")] (fun _ => 0)) 1).create_file "a"
        = Except.error (DMError.FileExistsError "a") ∧
    (Sys.mk ["a"] (DiskManagerState.mk [("a", 0)] [(0, "a")] (fun _ => 0)) 1).destroy_file "a"
        = Except.error (DMError.FileNotClosedError "a") ∧
    ∃ s2, ((Sys.mk ["a"] (DiskManagerState.mk [("a", 0)] [(0, "a")] (fun _ => 0)) 1).close_file
          0).destroy_file "a" = Except.ok s2 ∧ s2.is_file "a" = false :=
  C6_create_destroy_lifecycle
    (Sys.mk ["a"] (DiskManagerState.mk [("a", 0)] [(0, "a")] (fun _ => 0)) 1) "a" 0
    (by decide) (by decide) (by decide) (by decide)

/-- C7: in every state reachable through the operations of the disk manager the
open-file table is a bijection; `open_file` on a tracked path returns the
existing handle with the state unchanged; `open_file` on a path absent from
disk fails with not-found; `close_file` removes both directions of the
mapping; and `close_file` on an untracked handle is a no-op. -/
theorem C7_open_close_bijection (ops : List DMOp) (p q : String) (fd gd : Nat)
    (hp : mapLookup (runDM ops).dm.path2fd_ p = some fd)
    (hq : q ∉ (runDM ops).fs)
    (hg : mapLookup (runDM ops).dm.fd2path_ gd = none) :
    (∀ p2 fd2, mapLookup (runDM ops).dm.path2fd_ p2 = some fd2
        ↔ mapLookup (runDM ops).dm.fd2path_ fd2 = some p2) ∧
    (runDM ops).open_file p = Except.ok (fd, runDM ops) ∧
    (runDM ops).open_file q = Except.error (DMError.FileNotFoundError q) ∧
    mapLookup ((runDM ops).close_file fd).dm.fd2path_ fd = none ∧
    mapLookup ((runDM ops).close_file fd).dm.path2fd_ p = none ∧
    (runDM ops).close_file gd = runDM ops := by
  obtain ⟨B, F, T, N⟩ := runDM_inv ops
  have hfp : mapLookup (runDM ops).dm.fd2path_ fd = some p := (B p fd).mp hp
  have hpfs : p ∈ (runDM ops).fs := T p fd hp
  refine ⟨B, open_file_tracked _ p fd hpfs hp, open_file_not_found _ q hq, ?_, ?_,
    close_file_untracked _ gd hg⟩
  · rw [close_file_tracked _ fd p hfp]
    exact mapLookup_mapErase_self _ fd
  · rw [close_file_tracked _ fd p hfp]
    exact mapLookup_mapErase_self _ p

/-- C7 witness: after `create "a"; open "a"`, path `"a"` is tracked under
handle 0, `"b"` is absent from disk, and handle 7 is untracked. -/
theorem C7_open_close_bijection_witness :
    (∀ p2 fd2, mapLookup (runDM [DMOp.create "a", DMOp.openf "a"]).dm.path2fd_ p2 = some fd2
        ↔ mapLookup (runDM [DMOp.create "a", DMOp.openf "a"]).dm.fd2path_ fd2 = some p2) ∧
    (runDM [DMOp.create "a", DMOp.openf "a"]).open_file "a"
        = Except.ok (0, runDM [DMOp.create "a", DMOp.openf "a"]) ∧
    (runDM [DMOp.create "a", DMOp.openf "a"]).open_file "b"
        = Except.error (DMError.FileNotFoundError "b") ∧
    mapLookup ((runDM [DMOp.create "a", DMOp.openf "a"]).close_file 0).dm.fd2path_ 0 = none ∧
    mapLookup ((runDM [DMOp.create "a", DMOp.openf "a"]).close_file 0).dm.path2fd_ "a" = none ∧
    (runDM [DMOp.create "a", DMOp.openf "a"]).close_file 7
        = runDM [DMOp.create "a", DMOp.openf "a"] :=
  C7_open_close_bijection [DMOp.create "a", DMOp.openf "a"] "a" "b" 0 7
    (by decide) (by decide) (by decide)

/-- C10: `close_file` leaves the per-handle page-number counters untouched
(only the path↔handle maps change); across any operation sequence from
construction, the counter of handle `fd` equals exactly the number of
`allocate_page(fd)` calls — so `allocate_page` returns `0` on a handle iff
that handle was never allocated from since construction, and a handle value
reused by a later open continues the previous sequence. -/
theorem C10_close_preserves_counters (s : Sys) (g : Nat) (ops : List DMOp) (fd : Nat)
    (h : fd < MAX_FD) :
    (s.close_file g).dm.fd2pageno_ = s.dm.fd2pageno_ ∧
    (runDM ops).dm.fd2pageno_ fd = countAllocs ops fd ∧
    (((runDM ops).allocate_page fd).map Prod.fst = some 0 ↔ DMOp.alloc fd ∉ ops) := by
  refine ⟨?_, runDM_counter ops fd h, ?_⟩
  · rcases hcl : mapLookup s.dm.fd2path_ g with _ | path
    · rw [close_file_untracked s g hcl]
    · rw [close_file_tracked s g path hcl]
  · rw [show ((runDM ops).allocate_page fd).map Prod.fst = some (countAllocs ops fd) by
      simp [Sys.allocate_page, h, runDM_counter ops fd h]]
    rw [Option.some_inj]
    exact countAllocs_eq_zero_iff ops fd

/-- C10 witness: handle 2 is allocated from, closed (handle untracked —
`close_file` is a no-op on the maps and never touches counters), and
allocated from again: the counter continues at 1 rather than restarting. -/
theorem C10_close_preserves_counters_witness :
    ((Sys.mk ["a"] (DiskManagerState.mk [("a", 0)] [(0, "a")] (fun _ => 0)) 1).close_file
        0).dm.fd2pageno_
      = (Sys.mk ["a"] (DiskManagerState.mk [("a", 0)] [(0, "a")] (fun _ => 0)) 1).dm.fd2pageno_ ∧
    (runDM [DMOp.alloc 2, DMOp.closef 2, DMOp.alloc 2]).dm.fd2pageno_ 2
        = countAllocs [DMOp.alloc 2, DMOp.closef 2, DMOp.alloc 2] 2 ∧
    (((runDM [DMOp.alloc 2, DMOp.closef 2, DMOp.alloc 2]).allocate_page 2).map Prod.fst = some 0
        ↔ DMOp.alloc 2 ∉ [DMOp.alloc 2, DMOp.closef 2, DMOp.alloc 2]) :=
  C10_close_preserves_counters
    (Sys.mk ["a"] (DiskManagerState.mk [("a", 0)] [(0, "a")] (fun _ => 0)) 1) 0
    [DMOp.alloc 2, DMOp.closef 2, DMOp.alloc 2] 2 (by decide)

end DBExercise
